import Mathlib

/-
Verification of the statement-parsing engine of the estatement-parse
repository.  The Python sources are shallowly embedded: pure string and
arithmetic routines become Lean functions over lists of characters and
rational numbers, the regex engine is abstracted by passing the list of
matches (each match a list of captured group strings, as produced by
re.findall), and wall-clock values (datetime.now) become explicit
parameters.  Python floats are modelled by rational numbers carrying the
exact decimal value; machine rounding plays no role in any property
considered here.
-/

set_option autoImplicit false
set_option maxRecDepth 8000

namespace EstatementParse

/-- Decidable equality for Except results, used to settle concrete runs of
the embedded extractor by computation. -/
instance exceptDecEq {ε α : Type} [DecidableEq ε] [DecidableEq α] :
    DecidableEq (Except ε α) := fun x y =>
  match x, y with
  | .error a, .error b =>
    if h : a = b then isTrue (h ▸ rfl)
    else isFalse (fun he => h (by injection he))
  | .error _, .ok _ => isFalse (fun he => Except.noConfusion he)
  | .ok _, .error _ => isFalse (fun he => Except.noConfusion he)
  | .ok a, .ok b =>
    if h : a = b then isTrue (h ▸ rfl)
    else isFalse (fun he => h (by injection he))

/-! Character-level helpers modelling the Python string primitives used by
the sources (ASCII fragment, which covers every string the program
manipulates in the configured rules and keyword tables). -/

/-- Whitespace characters stripped by Python str.strip() (ASCII fragment). -/
def wsChar (c : Char) : Bool :=
  c == ' ' || c == '\t' || c == '\n' || c == '\r' || c == '\x0b' || c == '\x0c'

/-- ASCII upper-casing of one character, modelling Python str.upper() on the
ASCII fragment. -/
def upChar (c : Char) : Char :=
  if 'a' ≤ c ∧ c ≤ 'z' then Char.ofNat (c.toNat - 32) else c

/-- Upper-case a character list. -/
def upList (cs : List Char) : List Char := cs.map upChar

/-- Python str.strip(): drop leading and trailing whitespace. -/
def trimWs (cs : List Char) : List Char :=
  ((cs.dropWhile wsChar).reverse.dropWhile wsChar).reverse

/-- String-level strip. -/
def strTrim (s : String) : String := String.mk (trimWs s.toList)

/-- Character-list prefix test. -/
def startsWithCs : List Char → List Char → Bool
  | [], _ => true
  | _ :: _, [] => false
  | a :: as, b :: bs => a == b && startsWithCs as bs

/-- Python substring containment (the in operator on strings): the needle
occurs contiguously somewhere in the hay. -/
def isSubOf (needle : List Char) : List Char → Bool
  | [] => needle.isEmpty
  | c :: cs => startsWithCs needle (c :: cs) || isSubOf needle cs

/-- Tokenizer splitting a character list on runs of whitespace, accumulator
form (models the \s+ separation used by strptime for a literal blank in the
format, and str.split()). -/
def splitWsAux : List Char → List Char → List (List Char)
  | [], acc => if acc.isEmpty then [] else [acc.reverse]
  | c :: cs, acc =>
    if wsChar c then
      if acc.isEmpty then splitWsAux cs [] else acc.reverse :: splitWsAux cs []
    else splitWsAux cs (c :: acc)

/-- Split a character list into maximal whitespace-free tokens. -/
def splitWs (cs : List Char) : List (List Char) := splitWsAux cs []

/-- Numeric value of a decimal digit character. -/
def digitVal (c : Char) : Nat := c.toNat - 48

/-- Value of a digit string read in base 10. -/
def digsVal (cs : List Char) : Nat := cs.foldl (fun a c => 10 * a + digitVal c) 0

/-- All characters are decimal digits. -/
def allDigits (cs : List Char) : Bool := cs.all Char.isDigit

/-! Calendar model: dates are (year, month, day) triples of naturals, as
validated and produced by the datetime objects in the sources. -/

/-- A calendar date as carried by the Python datetime.date objects. -/
structure Date where
  year : Nat
  month : Nat
  day : Nat
deriving DecidableEq, Repr

/-- Leap-year test, translated from is_leap_year in estatement_parse.py
(line 460) and src/processors/generic.py (line 15). -/
def isLeapYear (y : Nat) : Bool :=
  (y % 4 == 0 && y % 100 != 0) || (y % 400 == 0)

/-- Month lengths as validated by datetime for a given leap flag. -/
def daysInMonth (leap : Bool) (m : Nat) : Nat :=
  if m = 2 then (if leap then 29 else 28)
  else if m = 4 ∨ m = 6 ∨ m = 9 ∨ m = 11 then 30
  else 31

/-- Month numbers of the C-locale month abbreviations matched by the
strptime directive for abbreviated month names. -/
def monthAbbrevs : List (String × Nat) :=
  [("JAN", 1), ("FEB", 2), ("MAR", 3), ("APR", 4), ("MAY", 5), ("JUN", 6),
   ("JUL", 7), ("AUG", 8), ("SEP", 9), ("OCT", 10), ("NOV", 11), ("DEC", 12)]

/-- Parse one whole token as a month abbreviation, case-insensitively, as
the strptime abbreviated-month directive does. -/
def monthFromAbbrev (tok : List Char) : Option Nat :=
  (monthAbbrevs.find? (fun p => p.1.toList == upList tok)).map (fun p => p.2)

/-- Parse one whole token as the strptime day-of-month directive: one or two
decimal digits. -/
def parseDayToken (tok : List Char) : Option Nat :=
  if tok.length = 1 ∨ tok.length = 2 then
    if allDigits tok then some (digsVal tok) else none
  else none

/-- Model of datetime.strptime(s, fmt) for the format day-of-month, blank,
abbreviated month (the default parse_date_format of both processors).
CPython turns the format into a regex: one or two digits, one or more
whitespace characters, a case-insensitive month abbreviation, anchored on
both sides; it then builds datetime(1900, month, day), which raises
ValueError when the day is out of range for that month in the (non-leap)
default year 1900.  The result is the (month, day) pair. -/
def strptimeDM (s : String) : Option (Nat × Nat) :=
  match splitWs s.toList with
  | [dTok, mTok] =>
    match parseDayToken dTok, monthFromAbbrev mTok with
    | some d, some m =>
        if 1 ≤ d ∧ d ≤ daysInMonth false m then some (m, d) else none
    | _, _ => none
  | _ => none

/-- Model of the Python int() builtin on strings: optional surrounding
whitespace, optional sign, then one or more decimal digits (digit-group
underscores are outside the modelled fragment; no input considered here
contains them). -/
def pyInt (s : String) : Option Int :=
  match trimWs s.toList with
  | '+' :: rest =>
      if rest ≠ [] ∧ allDigits rest then some (digsVal rest : Int) else none
  | '-' :: rest =>
      if rest ≠ [] ∧ allDigits rest then some (-(digsVal rest : Int)) else none
  | cs =>
      if cs ≠ [] ∧ allDigits cs then some (digsVal cs : Int) else none

/-! Date resolution. -/

/-- Fuelled form of the year-increment loop of
BankStatementProcessor.parse_date (estatement_parse.py lines 193-194):
while the year is not a leap year, add one.  A leap year always occurs
within eight consecutive years (lemma leapUpWithin8 below), so fuel 8 makes
the fuelled recursion equal to the unbounded source loop on every input. -/
def leapSearchUp : Nat → Nat → Nat
  | 0, y => y
  | fuel + 1, y => if isLeapYear y then y else leapSearchUp fuel (y + 1)

/-- Fuelled form of the year-decrement loop of
BankStatementProcessor.parse_date (estatement_parse.py lines 210-211):
while the year is not a leap year, subtract one.  Year 0 is a leap year, so
on naturals the loop never tries to pass below zero, and a leap year always
occurs within eight decrements (lemma leapDownWithin8 below): fuel 8 makes
the fuelled recursion equal to the unbounded source loop. -/
def leapSearchDown : Nat → Nat → Nat
  | 0, y => y
  | fuel + 1, y => if isLeapYear y then y else leapSearchDown fuel (y - 1)

/-- Python tuple comparison, (tx_mon, tx_day) greater than (st_mon, st_day),
used at
estatement_parse.py line 205: lexicographic order on the pairs. -/
def mdGt (txm txd stm std : Nat) : Bool :=
  decide (stm < txm) || (stm == txm && decide (std < txd))

/-- Parsing phase of BankStatementProcessor.parse_date (estatement_parse.py
lines 154-182), for the default format day-of-month, blank, abbreviated
month: first datetime.strptime with the configured format; on ValueError,
split the stripped string on whitespace, read the first token with int()
and the second with the abbreviated-month directive, and accept only the
pair day 29, month 2 (parsed against the leap year 2000); anything else
yields None.  Returns the (month, day) pair of dt_no_year. -/
def parsePartialMD (s : String) : Option (Nat × Nat) :=
  let stripped := trimWs s.toList
  match strptimeDM (String.mk stripped) with
  | some md => some md
  | none =>
    match splitWs stripped with
    | [p1, p2] =>
      match pyInt (String.mk p1), monthFromAbbrev p2 with
      | some d, some m => if d = 29 ∧ m = 2 then some (2, 29) else none
      | _, _ => none
    | _ => none

/-- Year-resolution phase and overall result of
BankStatementProcessor.parse_date (estatement_parse.py lines 147-212).
The anchor argument is self.statement_date; currentYear stands for the
wall-clock datetime.now().year read when no anchor is available.  With no
anchor the year falls back to currentYear, moved forward to the next leap
year when the parsed day-month is Feb 29; with an anchor the year is
anchor.year - 1 when the parsed (month, day) pair is lexicographically
greater than the anchor pair and anchor.year otherwise, moved backward to
the previous leap year when the parsed day-month is Feb 29. -/
def parseDate (anchor : Option Date) (currentYear : Nat) (s : String) : Option Date :=
  match parsePartialMD s with
  | none => none
  | some (m, d) =>
    match anchor with
    | none =>
      let fy := if m = 2 ∧ d = 29 ∧ isLeapYear currentYear = false then
          leapSearchUp 8 currentYear
        else currentYear
      some ⟨fy, m, d⟩
    | some st =>
      let y0 := if mdGt m d st.month st.day then st.year - 1 else st.year
      let y1 := if m = 2 ∧ d = 29 ∧ isLeapYear y0 = false then
          leapSearchDown 8 y0
        else y0
      some ⟨y1, m, d⟩

/-- Python date ordering (lexicographic on year, month, day). -/
def dateLtB (a b : Date) : Bool :=
  decide (a.year < b.year) ||
    (a.year == b.year &&
      (decide (a.month < b.month) || (a.month == b.month && decide (a.day < b.day))))

/-- GenericBankProcessor._parse_date of src/src/processors/generic.py
(lines 177-203), for the default format day-of-month, blank, abbreviated
month.  The today argument stands for the wall-clock
datetime.now().date().  The method reads no anchor: it strips the string,
parses it with strptime (so a Feb 29 input fails against the default year
1900 and yields None), places the parsed month-day in the current year,
and moves back one year when that candidate is strictly after today. -/
def parseDateGeneric (today : Date) (s : String) : Option Date :=
  match strptimeDM (strTrim s) with
  | none => none
  | some (m, d) =>
    let cand : Date := ⟨today.year, m, d⟩
    let y := if dateLtB today cand then today.year - 1 else today.year
    some ⟨y, m, d⟩

/-! Amount normalization. -/

/-- Optional leading sign of a float literal, with the remaining text. -/
def signSplit (cs : List Char) : Int × List Char :=
  match cs with
  | [] => (1, [])
  | c :: rest =>
    if c = '+' then (1, rest)
    else if c = '-' then (-1, rest)
    else (1, c :: rest)

/-- Optional leading sign of a float-literal exponent, as an integer. -/
def expSignSplit (cs : List Char) : Int × List Char :=
  match cs with
  | [] => (1, [])
  | c :: rest =>
    if c = '+' then (1, rest)
    else if c = '-' then (-1, rest)
    else (1, c :: rest)

/-- Model of the Python float() builtin on strings, returning the exact
decimal value as a rational: surrounding whitespace is stripped, then an
optional sign, an integer part and an optional fractional part (at least
one digit between them), and an optional exponent part consume the whole
remainder.  The special spellings inf, infinity and nan and digit-group
underscores are outside the modelled fragment; no input considered here
uses them, and no bound is placed on the number of fraction digits, just
as float() places none. -/
def pyFloat (cs0 : List Char) : Option ℚ :=
  let cs1 := trimWs cs0
  let sgnRest := signSplit cs1
  let sgn := sgnRest.1
  let ip := sgnRest.2.takeWhile Char.isDigit
  let afterIp := sgnRest.2.dropWhile Char.isDigit
  let fpRest : List Char × List Char :=
    match afterIp with
    | [] => ([], [])
    | c :: r =>
      if c = '.' then (r.takeWhile Char.isDigit, r.dropWhile Char.isDigit)
      else ([], c :: r)
  let fp := fpRest.1
  if ip.isEmpty ∧ fp.isEmpty then none
  else
    let mantNum : Int := digsVal ip * 10 ^ fp.length + digsVal fp
    let mantDen : Nat := 10 ^ fp.length
    match fpRest.2 with
    | [] => some (Rat.divInt (sgn * mantNum) mantDen)
    | c :: r =>
      if c = 'e' ∨ c = 'E' then
        let esRest := expSignSplit r
        let ed := esRest.2.takeWhile Char.isDigit
        let rest := esRest.2.dropWhile Char.isDigit
        if ed.isEmpty ∨ rest.isEmpty = false then none
        else if esRest.1 = 1 then
          some (Rat.divInt (sgn * mantNum * 10 ^ digsVal ed) mantDen)
        else
          some (Rat.divInt (sgn * mantNum) (mantDen * 10 ^ digsVal ed))
      else none

/-- The two replace calls cleaning an amount token (estatement_parse.py
line 269 and src/src/processors/generic.py line 139): remove every dollar
sign, then every comma. -/
def stripCurrency (cs : List Char) : List Char :=
  (cs.filter (fun c => c != '$')).filter (fun c => c != ',')

/-- The two replace calls feeding float() (estatement_parse.py line 274 and
src/src/processors/generic.py line 144): remove every opening parenthesis,
then every closing parenthesis. -/
def stripParens (cs : List Char) : List Char :=
  (cs.filter (fun c => c != '(')).filter (fun c => c != ')')

/-- Python str.startswith on the one-character pattern plus sign. -/
def startsWithPlus (cs : List Char) : Bool :=
  match cs with
  | [] => false
  | c :: _ => c == '+'

/-- Amount normalization of one captured token, translated from
src/src/processors/generic.py lines 139-151 (and identically from
estatement_parse.py lines 333-348): clean the token of dollar signs and
commas, convert it with float() after removing parentheses (a ValueError
is reported as none and makes the caller skip the match), then apply
three independent negations in order: credit-flag inversion when the flag
group captured a non-empty string and the rule requests it, parenthesized
accounting notation when the original token holds both an opening and a
closing parenthesis, and a leading plus sign on the cleaned token when
the rule requests it. -/
def normalizeAmount (amountStr crFlag : String) (invertIfCr plusMeansNeg : Bool) :
    Option ℚ :=
  let cleanCs := stripCurrency amountStr.toList
  match pyFloat (stripParens cleanCs) with
  | none => none
  | some q0 =>
    let q1 := if invertIfCr && crFlag != "" then -q0 else q0
    let q2 := if amountStr.toList.contains '(' && amountStr.toList.contains ')' then
        -q1
      else q1
    let q3 := if plusMeansNeg && startsWithPlus cleanCs then -q2 else q2
    some q3

/-- One conditional negation, the form each sign trigger of the amount
normalization takes: flip the sign when the trigger fires, otherwise leave
the value unchanged. -/
def condNeg (b : Bool) (q : ℚ) : ℚ := if b then -q else q

/-! Categorization and the transaction record. -/

/-- The transaction record of src/src/models/transaction.py (and the
dataclass of estatement_parse.py lines 18-24).  Amounts carry the exact
decimal value. -/
structure Transaction where
  bank : String
  date : Date
  amount : ℚ
  description : String
  category : String
deriving DecidableEq, Repr

/-- A category mapping: category names with their keyword lists, in the
insertion order of the configuration dictionary, which Python preserves. -/
abbrev CategoryMap := List (String × List String)

/-- Iteration core of categorize_transaction: first category, in map
order, one of whose upper-cased keywords occurs in the upper-cased
description; the sentinel Other when none does. -/
def categorizeFrom (du : List Char) : CategoryMap → String
  | [] => "Other"
  | (cat, kws) :: rest =>
    if kws.any (fun kw => isSubOf (upList kw.toList) du) then cat
    else categorizeFrom du rest

/-- BankStatementProcessor.categorize_transaction, translated from
src/src/processors/base.py lines 43-51 (and identically from
estatement_parse.py lines 138-144).  The lru_cache decoration of the
revised source memoizes a pure computation and cannot change its value. -/
def categorizeTransaction (cm : CategoryMap) (description : String) : String :=
  categorizeFrom (upList description.toList) cm

/-! Extraction: blacklist, validation, per-match processing. -/

/-- The boilerplate keyword blacklist shared by both extractors
(src/src/processors/generic.py lines 113-125 and estatement_parse.py
lines 306-318). -/
def blacklistKeywords : List String :=
  ["outstanding balance", "Previous balance", "Credit Payment", "PAYMENT VIA",
   "PREVIOUS STATEMENT", "LATECHARGEFEE", "POSTING AMOUNT", "CASHBACK",
   "CASH BACK", "CASH REBATE", "LATE CHARGE"]

/-- The blacklist test applied to a stripped description: some keyword,
upper-cased, occurs in the upper-cased description. -/
def isBlacklisted (description : String) : Bool :=
  blacklistKeywords.any
    (fun kw => isSubOf (upList kw.toList) (upList description.toList))

/-- Error raised by InputValidator.validate_transaction.  In the Python
exception hierarchy (src/src/exceptions.py) ValidationError derives from
BankStatementError, which derives from Exception directly: it is neither
an IndexError nor a ValueError. -/
inductive VError where
  | validationError
deriving DecidableEq, Repr

/-- InputValidator.validate_transaction, translated from
src/src/utils/validators.py lines 26-38.  Of its three checks only the
bank-name emptiness test can fire here: a datetime.date object is always
truthy in Python, matching the model where every Transaction holds a Date,
and the amount field is always numeric, matching the isinstance test. -/
def validateTransaction (t : Transaction) : Except VError Bool :=
  if t.bank = "" then .error .validationError
  else .ok true

/-- One extraction rule, as read from a bank entry of
bank_data_regex.yaml by GenericBankProcessor.__init__
(src/src/processors/generic.py lines 35-43).  hasPattern records whether a
pattern was configured and compiled (self.regex is not None); the matches
the compiled regex finds in a document are supplied separately, match by
match, each as the list of its captured group strings as returned by
re.findall.  The date format is the default day-of-month, blank,
abbreviated month. -/
structure Rule where
  hasPattern : Bool
  dateGroup : Nat
  descGroup : Nat
  amountGroup : Nat
  crGroup : Option Nat
  invertAmountIfCr : Bool
  plusMeansNegative : Bool
deriving DecidableEq, Repr

/-- Credit-flag lookup of src/src/processors/generic.py lines 140-142: the
empty string unless a credit group is configured and lies within the match
tuple, in which case the captured group (re.findall already substitutes
the empty string for a group that did not participate). -/
def crFlagOf (r : Rule) (m : List String) : String :=
  match r.crGroup with
  | none => ""
  | some g => if g < m.length then m.getD g "" else ""

/-- Body of the per-match loop of GenericBankProcessor._process_pdf_impl
(src/src/processors/generic.py lines 127-173).  The result is ok none when
the match is skipped (an out-of-range role index raises IndexError and an
unparseable amount raises ValueError, both caught by the except clause of
the loop; a blacklisted description and an unresolvable date skip by
continue), ok (some t) when a transaction is emitted, and error when
validate_transaction raises ValidationError, which the except clause of
the loop does not catch, so it propagates out of the whole loop. -/
def processMatch (r : Rule) (cm : CategoryMap) (today : Date) (bank : String)
    (m : List String) : Except VError (Option Transaction) :=
  if r.dateGroup < m.length ∧ r.descGroup < m.length ∧ r.amountGroup < m.length then
    let dateStr := strTrim (m.getD r.dateGroup "")
    let description := strTrim (m.getD r.descGroup "")
    let amountStr := strTrim (m.getD r.amountGroup "")
    if isBlacklisted description then .ok none
    else
      match normalizeAmount amountStr (crFlagOf r m) r.invertAmountIfCr
          r.plusMeansNegative with
      | none => .ok none
      | some amount =>
        match parseDateGeneric today dateStr with
        | none => .ok none
        | some transDate =>
          let t : Transaction :=
            ⟨bank, transDate, amount, description, categorizeTransaction cm description⟩
          match validateTransaction t with
          | .error e => .error e
          | .ok _ => .ok (some t)
  else .ok none

/-- The match loop of GenericBankProcessor._process_pdf_impl: transactions
of surviving matches in document order; an uncaught ValidationError
discards the whole result, as the raised exception leaves the method
before it can return its list. -/
def processMatches (r : Rule) (cm : CategoryMap) (today : Date) (bank : String) :
    List (List String) → Except VError (List Transaction)
  | [] => .ok []
  | m :: rest =>
    match processMatch r cm today bank m with
    | .error e => .error e
    | .ok none => processMatches r cm today bank rest
    | .ok (some t) => (processMatches r cm today bank rest).map (fun ts => t :: ts)

/-- Extraction entry point of GenericBankProcessor._process_pdf_impl
(src/src/processors/generic.py lines 95-175): without a usable compiled
pattern the method logs and returns the empty list before touching the
document; otherwise it processes the regex matches in order.  (The method
also extracts a statement date into self.statement_date, but _parse_date
never reads it, so it does not influence the result.) -/
def extractTransactions (r : Rule) (cm : CategoryMap) (today : Date)
    (bank : String) (ms : List (List String)) :
    Except VError (List Transaction) :=
  if r.hasPattern then processMatches r cm today bank ms else .ok []

/-! Configuration loading. -/

/-- Error raised by Config.load_yaml (src/src/utils/config.py lines 34-41):
any failure to open or parse the file is wrapped in a ConfigError. -/
inductive ConfigError where
  | configError
deriving DecidableEq, Repr

/-- Config.load_yaml, shallowly embedded: the configuration source is
given as an optional already-parsed value, none standing for a missing or
malformed file (the open or yaml.safe_load call raising).  The method
returns the parsed value or raises ConfigError. -/
def loadYaml {α : Type} (src : Option α) : Except ConfigError α :=
  match src with
  | some v => .ok v
  | none => .error .configError

/-- load_bank_config of src/src/main.py lines 14-20: Config.load_yaml on
the bank regex file, taking the banks mapping; any exception (in
particular the ConfigError) is caught and an empty mapping returned. -/
def loadBankConfig (src : Option (List (String × Rule))) : List (String × Rule) :=
  match loadYaml src with
  | .ok banks => banks
  | .error _ => []

/-- The category-mapping load of GenericBankProcessor.__init__
(src/src/processors/generic.py lines 24-32): the file is opened and parsed
directly, any exception is caught and logged, and the empty mapping is
substituted; the categories entry of the result feeds
categorize_transaction.  The Except return type records that no
exception, in particular no ConfigError, leaves the constructor. -/
def loadCategoryMapping (src : Option CategoryMap) : Except ConfigError CategoryMap :=
  match src with
  | some cats => .ok cats
  | none => .ok []

/-- Outcome skeleton of main() in src/src/main.py. -/
inductive RunOutcome where
  | abortedNoRules
  | abortedNoPdfs
  | ran (docs : Nat)
deriving DecidableEq, Repr

/-- Control-flow skeleton of main() (src/src/main.py lines 108-158): load
the bank configuration; when it is empty, log and return without touching
any document; when no documents are present, log and return; otherwise
process the documents (abstracted to their count). -/
def mainRun (bankSrc : Option (List (String × Rule))) (pdfCount : Nat) : RunOutcome :=
  let cfg := loadBankConfig bankSrc
  if cfg.isEmpty then .abortedNoRules
  else if pdfCount = 0 then .abortedNoPdfs
  else .ran pdfCount

/-! Supporting lemmas about the leap-year searches. -/

/-- Leap-year test as a function of the year residue modulo 400. -/
def leapMod (r : Nat) : Bool :=
  (r % 4 == 0 && r % 100 != 0) || (r % 400 == 0)

theorem isLeapYear_eq_leapMod (y : Nat) : isLeapYear y = leapMod (y % 400) := by
  unfold isLeapYear leapMod
  rw [Nat.mod_mod_of_dvd y (by norm_num : (4 : ℕ) ∣ 400),
    Nat.mod_mod_of_dvd y (by norm_num : (100 : ℕ) ∣ 400),
    Nat.mod_mod_of_dvd y (dvd_refl 400)]

/-- Among any eight consecutive years counted upward there is a leap year. -/
theorem leapUpWithin8 (y : Nat) : ∃ k, k < 8 ∧ isLeapYear (y + k) = true := by
  have hmod : ∀ r : Fin 400, ∃ k : Fin 8, leapMod ((r.1 + k.1) % 400) = true := by decide
  obtain ⟨k, hk⟩ := hmod ⟨y % 400, Nat.mod_lt y (by norm_num)⟩
  refine ⟨k.1, k.2, ?_⟩
  rw [isLeapYear_eq_leapMod]
  have h1 : (y + k.1) % 400 = (y % 400 + k.1) % 400 := by
    conv_lhs => rw [Nat.add_mod]
    rw [Nat.mod_eq_of_lt (lt_trans k.2 (by norm_num))]
  rw [h1]
  exact hk

/-- Among any eight consecutive years counted downward (never passing below
zero) there is a leap year. -/
theorem leapDownWithin8 (y : Nat) :
    ∃ k, k < 8 ∧ k ≤ y ∧ isLeapYear (y - k) = true := by
  by_cases hy : y < 8
  · refine ⟨y, hy, le_refl y, ?_⟩
    rw [Nat.sub_self]
    decide
  · have hmod : ∀ r : Fin 400, ∃ k : Fin 8,
        leapMod ((r.1 + 400 - k.1) % 400) = true := by decide
    obtain ⟨k, hk⟩ := hmod ⟨y % 400, Nat.mod_lt y (by norm_num)⟩
    have hk8 : k.1 < 8 := k.2
    have hky : k.1 ≤ y := by omega
    refine ⟨k.1, hk8, hky, ?_⟩
    rw [isLeapYear_eq_leapMod]
    have hdm := Nat.div_add_mod y 400
    have h1 : (y - k.1) % 400 = (y + 400 - k.1) % 400 := by
      have h2 : y + 400 - k.1 = y - k.1 + 400 := by omega
      rw [h2, Nat.add_mod_right]
    have h3 : y + 400 - k.1 = 400 * (y / 400) + (y % 400 + 400 - k.1) := by
      omega
    rw [h1, h3, Nat.mul_add_mod]
    exact hk

/-- The fuelled upward search, given enough fuel, lands on a leap year and
is exactly the least leap year at or above its start, matching the
unbounded source loop. -/
theorem leapSearchUp_spec (fuel : Nat) : ∀ y : Nat,
    (∃ k, k < fuel ∧ isLeapYear (y + k) = true) →
    isLeapYear (leapSearchUp fuel y) = true ∧ y ≤ leapSearchUp fuel y ∧
      ∀ z, y ≤ z → z < leapSearchUp fuel y → isLeapYear z = false := by
  induction fuel with
  | zero =>
    rintro y ⟨k, hk, _⟩
    exact absurd hk (Nat.not_lt_zero k)
  | succ f ih =>
    rintro y ⟨k, hk, hleap⟩
    unfold leapSearchUp
    by_cases hy : isLeapYear y = true
    · rw [if_pos hy]
      exact ⟨hy, le_refl y, fun z hz1 hz2 => absurd hz2 (not_lt_of_le hz1)⟩
    · rw [if_neg hy]
      have hy' : isLeapYear y = false := by simpa using hy
      have hk0 : k ≠ 0 := by
        rintro rfl
        rw [Nat.add_zero] at hleap
        exact hy hleap
      obtain ⟨k', rfl⟩ := Nat.exists_eq_succ_of_ne_zero hk0
      have hex : ∃ j, j < f ∧ isLeapYear (y + 1 + j) = true := by
        refine ⟨k', by omega, ?_⟩
        rw [show y + 1 + k' = y + (k' + 1) by omega]
        exact hleap
      obtain ⟨h1, h2, h3⟩ := ih (y + 1) hex
      refine ⟨h1, by omega, ?_⟩
      intro z hz1 hz2
      rcases Nat.eq_or_lt_of_le hz1 with rfl | hz
      · exact hy'
      · exact h3 z (by omega) hz2

/-- The fuelled downward search, given enough fuel, lands on a leap year
and is exactly the greatest leap year at or below its start, matching the
unbounded source loop. -/
theorem leapSearchDown_spec (fuel : Nat) : ∀ y : Nat,
    (∃ k, k < fuel ∧ k ≤ y ∧ isLeapYear (y - k) = true) →
    isLeapYear (leapSearchDown fuel y) = true ∧ leapSearchDown fuel y ≤ y ∧
      ∀ z, leapSearchDown fuel y < z → z ≤ y → isLeapYear z = false := by
  induction fuel with
  | zero =>
    rintro y ⟨k, hk, _, _⟩
    exact absurd hk (Nat.not_lt_zero k)
  | succ f ih =>
    rintro y ⟨k, hk, hky, hleap⟩
    unfold leapSearchDown
    by_cases hy : isLeapYear y = true
    · rw [if_pos hy]
      exact ⟨hy, le_refl y, fun z hz1 hz2 => absurd hz1 (not_lt_of_le hz2)⟩
    · rw [if_neg hy]
      have hy' : isLeapYear y = false := by simpa using hy
      have hk0 : k ≠ 0 := by
        rintro rfl
        rw [Nat.sub_zero] at hleap
        exact hy hleap
      obtain ⟨k', rfl⟩ := Nat.exists_eq_succ_of_ne_zero hk0
      have hy1 : 1 ≤ y := le_trans (by omega) hky
      have hex : ∃ j, j < f ∧ j ≤ y - 1 ∧ isLeapYear (y - 1 - j) = true := by
        refine ⟨k', by omega, by omega, ?_⟩
        rw [show y - 1 - k' = y - (k' + 1) by omega]
        exact hleap
      obtain ⟨h1, h2, h3⟩ := ih (y - 1) hex
      refine ⟨h1, by omega, ?_⟩
      intro z hz1 hz2
      rcases Nat.eq_or_lt_of_le hz2 with rfl | hz
      · exact hy'
      · exact h3 z hz1 (by omega)

/-- The upward search with fuel 8: least leap year at or above the start. -/
theorem leapSearchUp8 (y : Nat) :
    isLeapYear (leapSearchUp 8 y) = true ∧ y ≤ leapSearchUp 8 y ∧
      ∀ z, y ≤ z → z < leapSearchUp 8 y → isLeapYear z = false :=
  leapSearchUp_spec 8 y (leapUpWithin8 y)

/-- The downward search with fuel 8: greatest leap year at or below the
start. -/
theorem leapSearchDown8 (y : Nat) :
    isLeapYear (leapSearchDown 8 y) = true ∧ leapSearchDown 8 y ≤ y ∧
      ∀ z, leapSearchDown 8 y < z → z ≤ y → isLeapYear z = false :=
  leapSearchDown_spec 8 y (leapDownWithin8 y)

/-- Shape of parse_date after a successful parse, without an anchor. -/
theorem parseDate_none_eq (cy m d : Nat) (s : String)
    (h : parsePartialMD s = some (m, d)) :
    parseDate none cy s =
      some ⟨if m = 2 ∧ d = 29 ∧ isLeapYear cy = false then leapSearchUp 8 cy
        else cy, m, d⟩ := by
  simp only [parseDate, h]

/-- Shape of parse_date after a successful parse, with an anchor. -/
theorem parseDate_some_eq (st : Date) (cy m d : Nat) (s : String)
    (h : parsePartialMD s = some (m, d)) :
    parseDate (some st) cy s =
      some ⟨if m = 2 ∧ d = 29 ∧
          isLeapYear (if mdGt m d st.month st.day then st.year - 1 else st.year) = false
        then leapSearchDown 8 (if mdGt m d st.month st.day then st.year - 1 else st.year)
        else if mdGt m d st.month st.day then st.year - 1 else st.year, m, d⟩ := by
  simp only [parseDate, h]

/-- C3: parse_date never resolves a partial date to February 29 of a
non-leap year.  Without an anchor it starts from the wall-clock year and,
for a Feb 29 partial, returns the least leap year at or above it (the year
is advanced forward one at a time); with an anchor it first assigns the
year by the anchor comparison and, for a Feb 29 partial, returns the
greatest leap year at or below the assigned year (the year is decremented
one at a time); in particular the anchor 2025-03-01 resolves the partial
date 29 Feb to 2024-02-29, not to Feb 29 of the non-leap year 2025. -/
theorem claim_C3_leap_day :
    (∀ (a : Option Date) (cy : Nat) (s : String) (dt : Date),
      parseDate a cy s = some dt → dt.month = 2 → dt.day = 29 →
      isLeapYear dt.year = true)
    ∧ (∀ (cy : Nat) (s : String), parsePartialMD s = some (2, 29) →
      parseDate none cy s = some ⟨leapSearchUp 8 cy, 2, 29⟩ ∧
      cy ≤ leapSearchUp 8 cy ∧
      ∀ z, cy ≤ z → z < leapSearchUp 8 cy → isLeapYear z = false)
    ∧ (∀ (st : Date) (cy : Nat) (s : String), parsePartialMD s = some (2, 29) →
      parseDate (some st) cy s =
        some ⟨leapSearchDown 8
          (if mdGt 2 29 st.month st.day then st.year - 1 else st.year), 2, 29⟩ ∧
      leapSearchDown 8 (if mdGt 2 29 st.month st.day then st.year - 1 else st.year) ≤
        (if mdGt 2 29 st.month st.day then st.year - 1 else st.year) ∧
      ∀ z, leapSearchDown 8 (if mdGt 2 29 st.month st.day then st.year - 1 else st.year) < z →
        z ≤ (if mdGt 2 29 st.month st.day then st.year - 1 else st.year) →
        isLeapYear z = false)
    ∧ (∀ cy : Nat, parseDate (some ⟨2025, 3, 1⟩) cy "29 Feb" = some ⟨2024, 2, 29⟩) := by
  have upEq : ∀ y : Nat, isLeapYear y = true → leapSearchUp 8 y = y := by
    intro y hy
    show (if isLeapYear y then y else leapSearchUp 7 (y + 1)) = y
    rw [if_pos hy]
  have downEq : ∀ y : Nat, isLeapYear y = true → leapSearchDown 8 y = y := by
    intro y hy
    show (if isLeapYear y then y else leapSearchDown 7 (y - 1)) = y
    rw [if_pos hy]
  refine ⟨?_, ?_, ?_, ?_⟩
  · intro a cy s dt hparse hm hd
    cases hp : parsePartialMD s with
    | none => simp [parseDate, hp] at hparse
    | some md =>
      obtain ⟨m, d⟩ := md
      cases a with
      | none =>
        rw [parseDate_none_eq cy m d s hp, Option.some.injEq] at hparse
        subst hparse
        simp only at hm hd
        subst hm
        subst hd
        by_cases hcy : isLeapYear cy = true
        · rw [if_neg (fun hc => by rw [hcy] at hc; exact Bool.noConfusion hc.2.2)]
          exact hcy
        · have hcy' : isLeapYear cy = false := by simpa using hcy
          rw [if_pos ⟨rfl, rfl, hcy'⟩]
          exact (leapSearchUp8 cy).1
      | some st =>
        rw [parseDate_some_eq st cy m d s hp, Option.some.injEq] at hparse
        subst hparse
        simp only at hm hd
        subst hm
        subst hd
        by_cases hy : isLeapYear
            (if mdGt 2 29 st.month st.day then st.year - 1 else st.year) = true
        · rw [if_neg (fun hc => by rw [hy] at hc; exact Bool.noConfusion hc.2.2)]
          exact hy
        · have hy' : isLeapYear
              (if mdGt 2 29 st.month st.day then st.year - 1 else st.year) = false := by
            simpa using hy
          rw [if_pos ⟨rfl, rfl, hy'⟩]
          exact (leapSearchDown8 _).1
  · intro cy s hp
    have hshape := parseDate_none_eq cy 2 29 s hp
    by_cases hcy : isLeapYear cy = true
    · rw [if_neg (fun hc => by rw [hcy] at hc; exact Bool.noConfusion hc.2.2)] at hshape
      rw [upEq cy hcy]
      exact ⟨hshape, le_refl cy, fun z h1 h2 => absurd h2 (not_lt_of_le h1)⟩
    · have hcy' : isLeapYear cy = false := by simpa using hcy
      rw [if_pos ⟨rfl, rfl, hcy'⟩] at hshape
      exact ⟨hshape, (leapSearchUp8 cy).2.1, (leapSearchUp8 cy).2.2⟩
  · intro st cy s hp
    have hshape := parseDate_some_eq st cy 2 29 s hp
    by_cases hy : isLeapYear
        (if mdGt 2 29 st.month st.day then st.year - 1 else st.year) = true
    · rw [if_neg (fun hc => by rw [hy] at hc; exact Bool.noConfusion hc.2.2)] at hshape
      rw [downEq _ hy]
      exact ⟨hshape, le_refl _, fun z h1 h2 => absurd h1 (not_lt_of_le h2)⟩
    · have hy' : isLeapYear
          (if mdGt 2 29 st.month st.day then st.year - 1 else st.year) = false := by
        simpa using hy
      rw [if_pos ⟨rfl, rfl, hy'⟩] at hshape
      exact ⟨hshape, (leapSearchDown8 _).2.1, (leapSearchDown8 _).2.2⟩
  · intro cy
    have hshape := parseDate_some_eq ⟨2025, 3, 1⟩ cy 2 29 "29 Feb" (by decide)
    rw [hshape]
    decide

/-- C3 witness: the general theorem applied at the concrete partial date
29 Feb with wall-clock year 2025 and no anchor, and at anchor 2025-03-01. -/
theorem claim_C3_leap_day_witness :
    parseDate none 2025 "29 Feb" = some ⟨2028, 2, 29⟩ ∧
    parseDate (some ⟨2025, 3, 1⟩) 2025 "29 Feb" = some ⟨2024, 2, 29⟩ := by
  have h := claim_C3_leap_day
  have h1 := (h.2.1 2025 "29 Feb" (by decide)).1
  have h2 := h.2.2.2 2025
  have hv : leapSearchUp 8 2025 = 2028 := by decide
  rw [hv] at h1
  exact ⟨h1, h2⟩

/-- C1 counterexample: the partial date 29 Feb parses successfully and its
(month, day) pair is not lexicographically greater than that of the anchor
2025-03-01, so the claim assigns year 2025 to the resolved date; the code
instead returns year 2024, because the Feb 29 leap-year correction
decrements the assigned year. -/
theorem claim_C1_counterexample :
    parsePartialMD "29 Feb" = some (2, 29) ∧
    mdGt 2 29 3 1 = false ∧
    parseDate (some ⟨2025, 3, 1⟩) 2025 "29 Feb" = some ⟨2024, 2, 29⟩ := by
  decide

/-- C1 amended: for every partial date whose (month, day) pair parses
successfully and every anchor, parse_date assigns year anchor.year - 1
when the pair is lexicographically greater than the anchor pair and
anchor.year otherwise, except that when the parsed day-month is Feb 29 and
the year so assigned is not a leap year, the returned year is further
decremented to the nearest leap year below it. -/
theorem claim_C1_year_assignment (a : Date) (cy : Nat) (s : String) (m d : Nat)
    (h : parsePartialMD s = some (m, d)) :
    parseDate (some a) cy s =
      some ⟨if m = 2 ∧ d = 29 ∧
          isLeapYear (if mdGt m d a.month a.day then a.year - 1 else a.year) = false
        then leapSearchDown 8 (if mdGt m d a.month a.day then a.year - 1 else a.year)
        else if mdGt m d a.month a.day then a.year - 1 else a.year, m, d⟩
    ∧ (mdGt m d a.month a.day = true ↔ a.month < m ∨ (a.month = m ∧ a.day < d)) := by
  refine ⟨parseDate_some_eq a cy m d s h, ?_⟩
  unfold mdGt
  simp [decide_eq_true_iff]

/-- C1 witness: the amended theorem at the example of the specification,
anchor 2025-01-15 with partial date 20 Feb, whose pair is greater than the
anchor pair, resolving to the prior year 2024. -/
theorem claim_C1_year_assignment_witness :
    parseDate (some ⟨2025, 1, 15⟩) 2030 "20 Feb" = some ⟨2024, 2, 20⟩ := by
  rw [(claim_C1_year_assignment ⟨2025, 1, 15⟩ 2030 "20 Feb" 2 20 (by decide)).1]
  decide

/-- C10: the revised _parse_date ignores the statement anchor entirely (the
embedded function reads no anchor, matching the source method, which never
consults self.statement_date): for every date string parsing under the
default configured format it returns the parsed month-day placed in the
current year when that candidate is not after today, and in the previous
year otherwise, and the returned date is never strictly after today. -/
theorem claim_C10_wall_clock (today : Date) (s : String) (m d : Nat)
    (hy : 1 ≤ today.year)
    (h : strptimeDM (strTrim s) = some (m, d)) :
    parseDateGeneric today s =
      some ⟨if dateLtB today ⟨today.year, m, d⟩ then today.year - 1 else today.year,
        m, d⟩
    ∧ ∀ dt, parseDateGeneric today s = some dt → dateLtB today dt = false := by
  have hshape : parseDateGeneric today s =
      some ⟨if dateLtB today ⟨today.year, m, d⟩ then today.year - 1 else today.year,
        m, d⟩ := by
    simp only [parseDateGeneric, h]
  refine ⟨hshape, ?_⟩
  intro dt hdt
  rw [hshape, Option.some.injEq] at hdt
  subst hdt
  by_cases hlt : dateLtB today ⟨today.year, m, d⟩ = true
  · rw [if_pos hlt]
    unfold dateLtB
    have h1 : decide (today.year < today.year - 1) = false :=
      decide_eq_false (by omega)
    have h2 : (today.year == today.year - 1) = false := by
      simp only [beq_eq_false_iff_ne, ne_eq]
      omega
    simp [h1, h2]
  · rw [if_neg hlt]
    simpa using hlt

/-- C10 witness: the theorem at today 2025-06-15 with date string 01 Jul,
whose current-year placement 2025-07-01 lies in the future, so the
resolved date is 2024-07-01, not after today. -/
theorem claim_C10_wall_clock_witness :
    parseDateGeneric ⟨2025, 6, 15⟩ "01 Jul" = some ⟨2024, 7, 1⟩ ∧
    dateLtB ⟨2025, 6, 15⟩ ⟨2024, 7, 1⟩ = false := by
  have h := claim_C10_wall_clock ⟨2025, 6, 15⟩ "01 Jul" 7 1 (by decide) (by decide)
  have h1 : parseDateGeneric ⟨2025, 6, 15⟩ "01 Jul" = some ⟨2024, 7, 1⟩ := by
    rw [h.1]
    decide
  exact ⟨h1, h.2 ⟨2024, 7, 1⟩ h1⟩

/-- C7: extraction with a rule lacking a usable pattern returns the empty
sequence for every input, and extraction of a text in which the pattern
yields zero matches returns the empty sequence; both are ordinary returns,
never an error. -/
theorem claim_C7_empty_extraction (r : Rule) (cm : CategoryMap) (today : Date)
    (bank : String) (ms : List (List String)) :
    extractTransactions { r with hasPattern := false } cm today bank ms =
      .ok ([] : List Transaction)
    ∧ extractTransactions r cm today bank [] = .ok ([] : List Transaction) := by
  constructor
  · rfl
  · unfold extractTransactions
    split
    · rfl
    · rfl

/-- Skipping or propagation behaviour of the match loop head. -/
theorem processMatches_cons (r : Rule) (cm : CategoryMap) (today : Date)
    (bank : String) (m : List String) (rest : List (List String)) :
    processMatches r cm today bank (m :: rest) =
      match processMatch r cm today bank m with
      | .error e => .error e
      | .ok none => processMatches r cm today bank rest
      | .ok (some t) => (processMatches r cm today bank rest).map (fun ts => t :: ts) :=
  rfl

/-- C6: a match whose extracted description contains a blacklisted
boilerplate keyword in any letter case is skipped without error and
contributes no Transaction, whatever its date and amount fields hold: the
match is processed to ok none and its presence leaves the extraction of
the remaining matches unchanged. -/
theorem claim_C6_blacklist (r : Rule) (cm : CategoryMap) (today : Date)
    (bank : String) (m : List String) (rest : List (List String))
    (_hdesc : r.descGroup < m.length)
    (hblack : isBlacklisted (strTrim (m.getD r.descGroup "")) = true) :
    processMatch r cm today bank m = .ok none ∧
    extractTransactions r cm today bank (m :: rest) =
      extractTransactions r cm today bank rest := by
  have hpm : processMatch r cm today bank m = .ok none := by
    unfold processMatch
    by_cases hb : r.dateGroup < m.length ∧ r.descGroup < m.length ∧
        r.amountGroup < m.length
    · rw [if_pos hb]
      simp only [hblack, if_true]
    · rw [if_neg hb]
  refine ⟨hpm, ?_⟩
  unfold extractTransactions
  split
  · rw [processMatches_cons, hpm]
  · rfl

/-- C6 witness: a match carrying the keyword Previous balance in mixed
case, with valid date and amount fields, is skipped and the sibling match
still yields its transaction. -/
theorem claim_C6_blacklist_witness :
    processMatch ⟨true, 0, 1, 2, none, false, false⟩ [] ⟨2025, 6, 15⟩ "B"
      ["01 Jan", "pReViOuS bAlAnCe", "5.00"] = .ok none ∧
    extractTransactions ⟨true, 0, 1, 2, none, false, false⟩ [] ⟨2025, 6, 15⟩ "B"
        [["01 Jan", "pReViOuS bAlAnCe", "5.00"], ["02 Jan", "BOOK STORE", "7.50"]] =
      extractTransactions ⟨true, 0, 1, 2, none, false, false⟩ [] ⟨2025, 6, 15⟩ "B"
        [["02 Jan", "BOOK STORE", "7.50"]] :=
  claim_C6_blacklist ⟨true, 0, 1, 2, none, false, false⟩ [] ⟨2025, 6, 15⟩ "B"
    ["01 Jan", "pReViOuS bAlAnCe", "5.00"] [["02 Jan", "BOOK STORE", "7.50"]]
    (by decide) (by decide)

/-- C2 counterexample: with an empty configured bank name, the first match
of the document constructs a Transaction that fails validation; the raised
ValidationError is not caught by the per-match except clause, so the whole
extraction aborts with the error and the Transaction of the second,
well-formed match is not returned (were the claim true, the result would
be an ok list holding it). -/
theorem claim_C2_counterexample :
    extractTransactions ⟨true, 0, 1, 2, none, false, false⟩ [] ⟨2025, 6, 15⟩ ""
        [["01 Jan", "COFFEE SHOP", "5.00"], ["02 Jan", "BOOK STORE", "7.50"]] =
      .error .validationError ∧
    (∀ ts : List Transaction,
      extractTransactions ⟨true, 0, 1, 2, none, false, false⟩ [] ⟨2025, 6, 15⟩ ""
          [["01 Jan", "COFFEE SHOP", "5.00"], ["02 Jan", "BOOK STORE", "7.50"]] ≠
        .ok ts) ∧
    extractTransactions ⟨true, 0, 1, 2, none, false, false⟩ [] ⟨2025, 6, 15⟩ "B"
        [["02 Jan", "BOOK STORE", "7.50"]] =
      .ok [⟨"B", ⟨2025, 1, 2⟩, Rat.divInt 750 100, "BOOK STORE", "Other"⟩] := by
  have h0 : extractTransactions ⟨true, 0, 1, 2, none, false, false⟩ [] ⟨2025, 6, 15⟩ ""
      [["01 Jan", "COFFEE SHOP", "5.00"], ["02 Jan", "BOOK STORE", "7.50"]] =
      .error .validationError := by decide
  refine ⟨h0, ?_, by decide⟩
  intro ts h
  rw [h0] at h
  exact Except.noConfusion h

/-- C2 amended: a match-level date or amount failure, or an out-of-range
group index, makes processMatch yield ok none and only that match is
skipped, extraction of the remaining matches continuing unchanged; a match
emitting a transaction prepends it to the result of the rest; but a
ValidationError raised while validating the constructed Transaction
propagates and aborts extraction, discarding the transactions of every
other match of the document. -/
theorem claim_C2_match_isolation (r : Rule) (cm : CategoryMap) (today : Date)
    (bank : String) (m : List String) (rest : List (List String))
    (hp : r.hasPattern = true) :
    (processMatch r cm today bank m = .ok none →
      extractTransactions r cm today bank (m :: rest) =
        extractTransactions r cm today bank rest)
    ∧ (∀ t, processMatch r cm today bank m = .ok (some t) →
      extractTransactions r cm today bank (m :: rest) =
        (extractTransactions r cm today bank rest).map (fun ts => t :: ts))
    ∧ (∀ e, processMatch r cm today bank m = .error e →
      extractTransactions r cm today bank (m :: rest) = .error e) := by
  have he : ∀ xs, extractTransactions r cm today bank xs =
      processMatches r cm today bank xs := by
    intro xs
    unfold extractTransactions
    rw [if_pos hp]
  refine ⟨?_, ?_, ?_⟩
  · intro h
    rw [he, he, processMatches_cons, h]
  · intro t h
    rw [he, he, processMatches_cons, h]
  · intro e h
    rw [he, processMatches_cons, h]

/-- C2 witness: the amended theorem applied twice concretely: a match with
an unresolvable date is skipped and its sibling still extracted, while a
validation failure (empty bank name) aborts the document. -/
theorem claim_C2_match_isolation_witness :
    extractTransactions ⟨true, 0, 1, 2, none, false, false⟩ [] ⟨2025, 6, 15⟩ "B"
        [["99 Foo", "COFFEE SHOP", "5.00"], ["02 Jan", "BOOK STORE", "7.50"]] =
      extractTransactions ⟨true, 0, 1, 2, none, false, false⟩ [] ⟨2025, 6, 15⟩ "B"
        [["02 Jan", "BOOK STORE", "7.50"]] ∧
    extractTransactions ⟨true, 0, 1, 2, none, false, false⟩ [] ⟨2025, 6, 15⟩ ""
        [["01 Jan", "COFFEE SHOP", "5.00"], ["02 Jan", "BOOK STORE", "7.50"]] =
      .error .validationError := by
  constructor
  · exact (claim_C2_match_isolation ⟨true, 0, 1, 2, none, false, false⟩ []
      ⟨2025, 6, 15⟩ "B" ["99 Foo", "COFFEE SHOP", "5.00"]
      [["02 Jan", "BOOK STORE", "7.50"]] rfl).1 (by decide)
  · exact (claim_C2_match_isolation ⟨true, 0, 1, 2, none, false, false⟩ []
      ⟨2025, 6, 15⟩ "" ["01 Jan", "COFFEE SHOP", "5.00"]
      [["02 Jan", "BOOK STORE", "7.50"]] rfl).2.2 .validationError (by decide)

/-- C8: for a fixed category map, categorize_transaction is a pure function
of the description (here by construction, and the lru_cache of the source
memoizes without changing values); a description matching no keyword of
any category yields the sentinel Other, and otherwise the result is the
first category in map-iteration order one of whose keywords occurs
case-insensitively in the description. -/
theorem claim_C8_categorizer :
    (∀ (cm : CategoryMap) (d : String),
      (∀ ce ∈ cm, ∀ kw ∈ ce.2, isSubOf (upList kw.toList) (upList d.toList) = false) →
      categorizeTransaction cm d = "Other")
    ∧ (∀ (pre post : CategoryMap) (cat : String) (kws : List String) (d : String),
      (∀ ce ∈ pre, ∀ kw ∈ ce.2, isSubOf (upList kw.toList) (upList d.toList) = false) →
      (∃ kw ∈ kws, isSubOf (upList kw.toList) (upList d.toList) = true) →
      categorizeTransaction (pre ++ (cat, kws) :: post) d = cat) := by
  constructor
  · intro cm d hnone
    unfold categorizeTransaction
    induction cm with
    | nil => rfl
    | cons ce rest ih =>
      obtain ⟨cat, kws⟩ := ce
      unfold categorizeFrom
      rw [if_neg]
      · exact ih (fun ce hce kw hkw => hnone ce (List.mem_cons_of_mem _ hce) kw hkw)
      · intro hany
        rw [List.any_eq_true] at hany
        obtain ⟨kw, hkw, hsub⟩ := hany
        have := hnone (cat, kws) (List.mem_cons_self _ _) kw hkw
        rw [this] at hsub
        exact Bool.noConfusion hsub
  · intro pre post cat kws d hpre hhit
    unfold categorizeTransaction
    induction pre with
    | nil =>
      rw [List.nil_append]
      unfold categorizeFrom
      rw [if_pos]
      rw [List.any_eq_true]
      obtain ⟨kw, hkw, hsub⟩ := hhit
      exact ⟨kw, hkw, hsub⟩
    | cons ce rest ih =>
      obtain ⟨c0, k0⟩ := ce
      rw [List.cons_append]
      unfold categorizeFrom
      rw [if_neg]
      · exact ih (fun ce hce kw hkw => hpre ce (List.mem_cons_of_mem _ hce) kw hkw)
      · intro hany
        rw [List.any_eq_true] at hany
        obtain ⟨kw, hkw, hsub⟩ := hany
        have := hpre (c0, k0) (List.mem_cons_self _ _) kw hkw
        rw [this] at hsub
        exact Bool.noConfusion hsub

/-- C8 witness: the theorem at a two-category map, returning the first
matching category for one description and the sentinel for another. -/
theorem claim_C8_categorizer_witness :
    categorizeTransaction [("Food", ["COFFEE"]), ("Shopping", ["AMAZON"])]
      "amazon.com order" = "Shopping" ∧
    categorizeTransaction [("Food", ["COFFEE"]), ("Shopping", ["AMAZON"])]
      "TAXI RIDE" = "Other" := by
  constructor
  · exact claim_C8_categorizer.2 [("Food", ["COFFEE"])] [] "Shopping" ["AMAZON"]
      "amazon.com order" (by decide) (by decide)
  · exact claim_C8_categorizer.1 [("Food", ["COFFEE"]), ("Shopping", ["AMAZON"])]
      "TAXI RIDE" (by decide)

/-- C9 counterexample: the category-mapping load of the revised processor
does not fail with a ConfigError on a missing or malformed source; it
swallows the failure and substitutes the empty mapping. -/
theorem claim_C9_counterexample :
    loadCategoryMapping none = .ok ([] : CategoryMap) ∧
    ∀ e : ConfigError, loadCategoryMapping none ≠ .error e := by
  refine ⟨rfl, ?_⟩
  intro e h
  rw [show loadCategoryMapping none = .ok ([] : CategoryMap) from rfl] at h
  exact Except.noConfusion h

/-- C9 amended: Config.load_yaml fails with a ConfigError exactly when the
configuration source is missing or malformed, and returns the parsed value
otherwise; the category-mapping load of GenericBankProcessor.__init__
instead swallows any failure and substitutes an empty map; and a caller
receiving an empty rule mapping aborts the run gracefully (main returns
after logging rather than crashing). -/
theorem claim_C9_config_loading :
    (∀ b : List (String × Rule), loadYaml (some b) = .ok b)
    ∧ loadYaml (none : Option (List (String × Rule))) = .error .configError
    ∧ loadCategoryMapping none = .ok ([] : CategoryMap)
    ∧ (∀ n : Nat, mainRun none n = .abortedNoRules)
    ∧ (∀ (src : Option (List (String × Rule))) (n : Nat),
      loadBankConfig src = [] → mainRun src n = .abortedNoRules) := by
  refine ⟨fun b => rfl, rfl, rfl, fun n => rfl, ?_⟩
  intro src n h
  unfold mainRun
  rw [h]
  rfl

/-- C9 witness: the amended theorem applied to a present but empty banks
mapping: main aborts gracefully. -/
theorem claim_C9_config_loading_witness :
    mainRun (some ([] : List (String × Rule))) 5 = .abortedNoRules :=
  claim_C9_config_loading.2.2.2.2 (some []) 5 rfl

/-- C4: the amount normalization applies its three sign triggers as
independent conditional negations that compound: the credit-flag negation
(when the rule requests it and the captured flag is non-empty), the
parenthesized-token negation, and the leading-plus negation (when the rule
requests it), each flipping the sign of the parsed magnitude; in
particular the raw token (1,234.56) with plusMeansNegative false and no
credit flag yields -1234.56, and the captured amount 50.00 with a captured
non-empty credit flag CR and invertOnCreditFlag true yields -50.00. -/
theorem claim_C4_sign_composition :
    (∀ (amountStr crFlag : String) (i p : Bool),
      normalizeAmount amountStr crFlag i p =
        (pyFloat (stripParens (stripCurrency amountStr.toList))).map (fun q =>
          condNeg (p && startsWithPlus (stripCurrency amountStr.toList))
            (condNeg (amountStr.toList.contains '(' && amountStr.toList.contains ')')
              (condNeg (i && crFlag != "") q))))
    ∧ (∀ (b : Bool) (q : ℚ), condNeg b q = (if b then -1 else 1) * q)
    ∧ normalizeAmount "(1,234.56)" "" false false = some (Rat.divInt (-123456) 100)
    ∧ Rat.divInt (-123456) 100 = -(1234.56 : ℚ)
    ∧ normalizeAmount "50.00" "CR" true false = some (Rat.divInt (-5000) 100)
    ∧ Rat.divInt (-5000) 100 = -(50 : ℚ) := by
  refine ⟨?_, ?_, by decide, by rw [Rat.divInt_eq_div]; norm_num, by decide,
    by rw [Rat.divInt_eq_div]; norm_num⟩
  · intro amountStr crFlag i p
    simp only [normalizeAmount]
    cases pyFloat (stripParens (stripCurrency amountStr.toList)) with
    | none => rfl
    | some q => rfl
  · intro b q
    cases b with
    | true => simp [condNeg]
    | false => simp [condNeg]

/-- A digit character differs from any non-digit character. -/
theorem digit_ne (c x : Char) (h : c.isDigit = true) (hx : x.isDigit = false) :
    c ≠ x := by
  intro he
  rw [he, hx] at h
  exact Bool.noConfusion h

/-- A digit character is not whitespace. -/
theorem ws_false_of_digit (c : Char) (h : c.isDigit = true) : wsChar c = false := by
  unfold wsChar
  rw [beq_eq_false_iff_ne.mpr (digit_ne c ' ' h (by decide)),
    beq_eq_false_iff_ne.mpr (digit_ne c '\t' h (by decide)),
    beq_eq_false_iff_ne.mpr (digit_ne c '\n' h (by decide)),
    beq_eq_false_iff_ne.mpr (digit_ne c '\r' h (by decide)),
    beq_eq_false_iff_ne.mpr (digit_ne c '\x0b' h (by decide)),
    beq_eq_false_iff_ne.mpr (digit_ne c '\x0c' h (by decide))]
  rfl

/-- dropWhile is the identity when the predicate rejects every element. -/
theorem dropWhile_eq_self_of (p : Char → Bool) (l : List Char)
    (h : ∀ c ∈ l, p c = false) : l.dropWhile p = l := by
  cases l with
  | nil => rfl
  | cons a as =>
    rw [List.dropWhile_cons, h a (List.mem_cons_self a as)]
    rfl

/-- Stripping whitespace is the identity on whitespace-free text. -/
theorem trimWs_eq_self (l : List Char) (h : ∀ c ∈ l, wsChar c = false) :
    trimWs l = l := by
  unfold trimWs
  rw [dropWhile_eq_self_of _ l h,
    dropWhile_eq_self_of _ l.reverse (fun c hc => h c (List.mem_reverse.mp hc))]
  exact List.reverse_reverse l

/-- takeWhile keeps everything when the predicate accepts every element. -/
theorem takeWhile_eq_self_of (p : Char → Bool) (l : List Char)
    (h : ∀ c ∈ l, p c = true) : l.takeWhile p = l := by
  induction l with
  | nil => rfl
  | cons a as ih =>
    rw [List.takeWhile_cons, h a (List.mem_cons_self a as)]
    simp only [if_true]
    rw [ih (fun c hc => h c (List.mem_cons_of_mem a hc))]

/-- dropWhile drops everything when the predicate accepts every element. -/
theorem dropWhile_nil_of (p : Char → Bool) (l : List Char)
    (h : ∀ c ∈ l, p c = true) : l.dropWhile p = [] := by
  induction l with
  | nil => rfl
  | cons a as ih =>
    rw [List.dropWhile_cons, h a (List.mem_cons_self a as)]
    simp only [if_true]
    exact ih (fun c hc => h c (List.mem_cons_of_mem a hc))

/-- The scan for the integer part of a float literal stops exactly at the
decimal point. -/
theorem span_digits_dot (ip fp : List Char) (hip : ∀ c ∈ ip, c.isDigit = true) :
    (ip ++ '.' :: fp).takeWhile Char.isDigit = ip ∧
    (ip ++ '.' :: fp).dropWhile Char.isDigit = '.' :: fp := by
  have hdot : Char.isDigit '.' = false := by decide
  induction ip with
  | nil =>
    rw [List.nil_append]
    constructor
    · rw [List.takeWhile_cons, hdot]
      rfl
    · rw [List.dropWhile_cons, hdot]
      rfl
  | cons a as ih =>
    have ha : Char.isDigit a = true := hip a (List.mem_cons_self a as)
    obtain ⟨ih1, ih2⟩ := ih (fun c hc => hip c (List.mem_cons_of_mem a hc))
    rw [List.cons_append]
    constructor
    · rw [List.takeWhile_cons, ha]
      simp only [if_true]
      rw [ih1]
    · rw [List.dropWhile_cons, ha]
      simp only [if_true]
      exact ih2

/-- The sign scan of a float literal consumes nothing when the text starts
with a digit. -/
theorem signSplit_digit (a : Char) (cs : List Char) (h : a.isDigit = true) :
    signSplit (a :: cs) = (1, a :: cs) := by
  show (if a = '+' then ((1 : Int), cs)
    else if a = '-' then ((-1 : Int), cs) else (1, a :: cs)) = (1, a :: cs)
  rw [if_neg (digit_ne a '+' h (by decide)), if_neg (digit_ne a '-' h (by decide))]

/-- A list filter is the identity when the predicate accepts everything. -/
theorem filter_eq_self_of (p : Char → Bool) (l : List Char)
    (h : ∀ c ∈ l, p c = true) : l.filter p = l := by
  induction l with
  | nil => rfl
  | cons a as ih =>
    rw [List.filter_cons, h a (List.mem_cons_self a as)]
    simp only [if_true]
    rw [ih (fun c hc => h c (List.mem_cons_of_mem a hc))]

/-- A list does not contain a character different from all its members. -/
theorem contains_eq_false_of (x : Char) (l : List Char)
    (h : ∀ c ∈ l, c ≠ x) : l.contains x = false := by
  induction l with
  | nil => rfl
  | cons a as ih =>
    rw [List.contains_cons]
    rw [beq_eq_false_iff_ne.mpr (fun he => h a (List.mem_cons_self a as) he.symm)]
    rw [Bool.false_or]
    exact ih (fun c hc => h c (List.mem_cons_of_mem a hc))

/-- Value of the float parser on a plain decimal literal: an integer part,
a decimal point and a fraction part, with no sign, no exponent and no
surrounding whitespace; the number of fraction digits is arbitrary. -/
theorem pyFloat_decimal (ip fp : List Char) (hip : ip ≠ [])
    (hipd : ∀ c ∈ ip, c.isDigit = true) (hfpd : ∀ c ∈ fp, c.isDigit = true) :
    pyFloat (ip ++ '.' :: fp) =
      some (Rat.divInt (digsVal ip * 10 ^ fp.length + digsVal fp) (10 ^ fp.length)) := by
  obtain ⟨a, as, rfl⟩ := List.exists_cons_of_ne_nil hip
  have ha : Char.isDigit a = true := hipd a (List.mem_cons_self a as)
  have hnw : ∀ c ∈ (a :: as) ++ '.' :: fp, wsChar c = false := by
    intro c hc
    rcases List.mem_append.mp hc with hci | hcf
    · exact ws_false_of_digit c (hipd c hci)
    · rcases List.mem_cons.mp hcf with rfl | hcf2
      · decide
      · exact ws_false_of_digit c (hfpd c hcf2)
  have hspan := span_digits_dot (a :: as) fp hipd
  have hspan1 : List.takeWhile Char.isDigit (a :: (as ++ '.' :: fp)) = a :: as := by
    rw [← List.cons_append]
    exact hspan.1
  have hspan2 : List.dropWhile Char.isDigit (a :: (as ++ '.' :: fp)) = '.' :: fp := by
    rw [← List.cons_append]
    exact hspan.2
  have hdotif : (if ('.' : Char) = '.' then
      (fp.takeWhile Char.isDigit, fp.dropWhile Char.isDigit)
    else ([], '.' :: fp)) = (fp.takeWhile Char.isDigit, fp.dropWhile Char.isDigit) :=
    if_pos rfl
  simp only [pyFloat]
  rw [trimWs_eq_self _ hnw]
  rw [List.cons_append, signSplit_digit a _ ha]
  simp only [hspan1, hspan2, hdotif, takeWhile_eq_self_of _ fp hfpd,
    dropWhile_nil_of _ fp hfpd, List.isEmpty_cons, Bool.false_eq_true, false_and,
    if_false, if_true, one_mul]
  norm_cast

/-- C5 counterexample: the cleaned token 1.234 carries three fraction
digits, which the claim says must be rejected; the code converts it with
float() and accepts it with value 1.234. -/
theorem claim_C5_counterexample :
    normalizeAmount "1.234" "" false false = some (Rat.divInt 1234 1000) ∧
    Rat.divInt 1234 1000 = (1.234 : ℚ) ∧
    normalizeAmount "1.234" "" false false ≠ none := by
  refine ⟨by decide, ?_, by decide⟩
  rw [Rat.divInt_eq_div]
  norm_num

/-- C5 amended: normalize first strips currency symbols and thousands
separators and fails when the remainder is not parseable by float() (for
instance a letter string), but it places no bound on the number of
fraction digits: every remainder consisting of one or more integer digits,
a decimal point and any number of fraction digits is accepted, with the
exact decimal value (possibly negated by the credit-flag trigger). -/
theorem claim_C5_decimal_acceptance (ip fp : List Char) (cr : String) (i p : Bool)
    (hip : ip ≠ []) (hipd : ∀ c ∈ ip, c.isDigit = true)
    (hfpd : ∀ c ∈ fp, c.isDigit = true) :
    normalizeAmount (String.mk (ip ++ '.' :: fp)) cr i p =
      some (condNeg (i && cr != "")
        (Rat.divInt (digsVal ip * 10 ^ fp.length + digsVal fp) (10 ^ fp.length)))
    ∧ normalizeAmount "abc" cr i p = none := by
  constructor
  · have htl : (String.mk (ip ++ '.' :: fp)).toList = ip ++ '.' :: fp := rfl
    have hmem : ∀ c ∈ ip ++ '.' :: fp, c.isDigit = true ∨ c = '.' := by
      intro c hc
      rcases List.mem_append.mp hc with hci | hcf
      · exact Or.inl (hipd c hci)
      · rcases List.mem_cons.mp hcf with rfl | hcf2
        · exact Or.inr rfl
        · exact Or.inl (hfpd c hcf2)
    have hne : ∀ x : Char, x.isDigit = false → x ≠ '.' →
        ∀ c ∈ ip ++ '.' :: fp, c ≠ x := by
      intro x hx hxdot c hc
      rcases hmem c hc with hd | rfl
      · exact digit_ne c x hd hx
      · exact fun he => hxdot he.symm
    have hsc : stripCurrency (ip ++ '.' :: fp) = ip ++ '.' :: fp := by
      unfold stripCurrency
      rw [filter_eq_self_of _ _ (fun c hc =>
          bne_iff_ne.mpr (hne '$' (by decide) (by decide) c hc))]
      rw [filter_eq_self_of _ _ (fun c hc =>
          bne_iff_ne.mpr (hne ',' (by decide) (by decide) c hc))]
    have hsp : stripParens (ip ++ '.' :: fp) = ip ++ '.' :: fp := by
      unfold stripParens
      rw [filter_eq_self_of _ _ (fun c hc =>
          bne_iff_ne.mpr (hne '(' (by decide) (by decide) c hc))]
      rw [filter_eq_self_of _ _ (fun c hc =>
          bne_iff_ne.mpr (hne ')' (by decide) (by decide) c hc))]
    have hfl := pyFloat_decimal ip fp hip hipd hfpd
    have hcop : (ip ++ '.' :: fp).contains '(' = false :=
      contains_eq_false_of _ _ (hne '(' (by decide) (by decide))
    have hplus : startsWithPlus (ip ++ '.' :: fp) = false := by
      obtain ⟨a, as, rfl⟩ := List.exists_cons_of_ne_nil hip
      show (a == '+') = false
      exact beq_eq_false_iff_ne.mpr
        (digit_ne a '+' (hipd a (List.mem_cons_self a as)) (by decide))
    simp only [normalizeAmount, htl, hsc, hsp, hfl, hcop, hplus, Bool.false_and,
      Bool.and_false, Bool.false_eq_true, if_false, condNeg]
  · simp only [normalizeAmount,
      (by decide : pyFloat (stripParens (stripCurrency "abc".toList)) = none)]

/-- C5 witness: the amended theorem at the three-fraction-digit token
1.234 with no credit flag, accepted with value 1234/1000, and at the
non-numeric token abc, rejected. -/
theorem claim_C5_decimal_acceptance_witness :
    String.mk ['1', '.', '2', '3', '4'] = "1.234" ∧
    normalizeAmount "1.234" "" false false = some (Rat.divInt 1234 1000) ∧
    normalizeAmount "abc" "" false false = none := by
  have h := claim_C5_decimal_acceptance ['1'] ['2', '3', '4'] "" false false
    (by decide) (by decide) (by decide)
  refine ⟨rfl, ?_, h.2⟩
  have h1 := h.1
  rw [show String.mk (['1'] ++ ['.', '2', '3', '4']) = "1.234" from rfl] at h1
  rw [h1]
  decide

end EstatementParse
